import Mathlib

/-!
Verification of the FinanceGuruPro transaction aggregation and reporting
pipeline, shallowly embedded from `src/main.py`.

Modelling conventions:
* SQLite rows of the `transactions` table become the `Transaction` structure;
  the `CHECK` constraints of `init_db` are reflected in the field types where
  the type system can carry them (`TxType` is the closed three-value set).
* Amounts are modelled as integers `ℤ` counting exact multiples of the
  currency's smallest unit, following the spec's numeric semantics (fixed-point
  currency values, scaled-integer internal representation); every property
  below is a statement of exact arithmetic over those values.
* SQL `GROUP BY` becomes: list of distinct keys, each paired with the sum of
  the grouped column over the rows matching that key.
* SQL `ORDER BY` / pandas sorts become `List.insertionSort`, which is a stable
  sort; pandas `groupby` sorts its keys ascending, which is modelled
  explicitly.
* Fallible request handlers return a pair of (new database state, HTTP status
  code); chart generators return `Option` chart data, `none` standing for the
  no-chart-to-produce `return None` paths.
-/

namespace FinanceGuru

/-- The closed set of transaction types enforced by
`CHECK(type IN ('income', 'expense', 'investment'))` in `init_db`. -/
inductive TxType
  | income
  | expense
  | investment
deriving DecidableEq, Repr

/-- Calendar date stored in the `date` column.  Dates are stored as ISO text,
whose lexicographic order coincides with the chronological order modelled
here. -/
structure Date where
  year : Nat
  month : Nat
  day : Nat
deriving DecidableEq, Repr

/-- A row of the `transactions` table. -/
structure Transaction where
  id : Nat
  date : Date
  type : TxType
  source : String
  amount : ℤ
  description : String
  createdAt : Nat
deriving DecidableEq, Repr

/-- `SUM(amount)` over a list of rows. -/
def sumAmounts (l : List Transaction) : ℤ :=
  (l.map (·.amount)).sum

/-- The result dictionary of `calculate_totals`. -/
structure Totals where
  total_income : ℤ
  total_expense : ℤ
  total_investment : ℤ
  net_savings : ℤ
deriving DecidableEq, Repr

/-- `SELECT type, SUM(amount) FROM transactions GROUP BY type`: one row per
type present in the table, carrying the sum of `amount` over that group. -/
def typeGroups (txs : List Transaction) : List (TxType × ℤ) :=
  ((txs.map (·.type)).dedup).map
    (fun t => (t, sumAmounts (txs.filter (fun tx => tx.type == t))))

/-- One step of the `totals[row['type']] = row['total']` loop of
`calculate_totals`: overwrite the entry of the row's key. -/
def applyRow (d : TxType → ℤ) (row : TxType × ℤ) : TxType → ℤ :=
  fun t => if t = row.1 then row.2 else d t

/-- `calculate_totals` from `src/main.py`: start from
`{'income': 0, 'expense': 0, 'investment': 0}`, overwrite each key present in
the `GROUP BY` result, and derive `net_savings = income - expense`. -/
def calculate_totals (txs : List Transaction) : Totals :=
  let totals := (typeGroups txs).foldl applyRow (fun _ => 0)
  { total_income := totals .income
    total_expense := totals .expense
    total_investment := totals .investment
    net_savings := totals .income - totals .expense }

/-- Select the field of `Totals` corresponding to a type. -/
def Totals.ofType (T : Totals) : TxType → ℤ
  | .income => T.total_income
  | .expense => T.total_expense
  | .investment => T.total_investment

/-! ### Orderings

`lexLeP` is code-point lexicographic order on character lists; `strLe` is the
string order Python/pandas use when `groupby` sorts its keys ascending.
`recentLE` is the row order of `ORDER BY date DESC, created_at DESC` in
`get_transactions` (ISO date text compares chronologically, so the text order
of the `date` column is the componentwise order modelled here). -/

def lexLeP : List Char → List Char → Prop
  | [], _ => True
  | _ :: _, [] => False
  | a :: as, b :: bs =>
    a.val.toNat < b.val.toNat ∨ (a.val.toNat = b.val.toNat ∧ lexLeP as bs)

def lexLeP.dec : ∀ a b : List Char, Decidable (lexLeP a b)
  | [], _ => isTrue trivial
  | _ :: _, [] => isFalse (fun h => h)
  | _a :: as, _b :: bs =>
    have : Decidable (lexLeP as bs) := lexLeP.dec as bs
    inferInstanceAs (Decidable (_ ∨ _))

instance : DecidableRel lexLeP := lexLeP.dec

def lexLeP_total : ∀ a b : List Char, lexLeP a b ∨ lexLeP b a
  | [], _ => Or.inl trivial
  | _ :: _, [] => Or.inr trivial
  | a :: as, b :: bs => by
    rcases Nat.lt_trichotomy a.val.toNat b.val.toNat with h | h | h
    · exact Or.inl (Or.inl h)
    · rcases lexLeP_total as bs with ih | ih
      · exact Or.inl (Or.inr ⟨h, ih⟩)
      · exact Or.inr (Or.inr ⟨h.symm, ih⟩)
    · exact Or.inr (Or.inl h)

def lexLeP_trans : ∀ a b c : List Char, lexLeP a b → lexLeP b c → lexLeP a c
  | [], _, _, _, _ => trivial
  | _ :: _, [], _, h1, _ => h1.elim
  | _ :: _, _ :: _, [], _, h2 => h2.elim
  | a :: as, b :: bs, c :: cs, h1, h2 => by
    rcases h1 with h1 | ⟨h1e, h1r⟩ <;> rcases h2 with h2 | ⟨h2e, h2r⟩
    · exact Or.inl (by omega)
    · exact Or.inl (by omega)
    · exact Or.inl (by omega)
    · exact Or.inr ⟨by omega, lexLeP_trans as bs cs h1r h2r⟩

/-- Python's string order (code-point lexicographic), as used by pandas when
sorting `groupby` keys. -/
def strLe (a b : String) : Prop := lexLeP a.data b.data

instance : DecidableRel strLe := fun a b => lexLeP.dec a.data b.data

instance : IsTotal String strLe := ⟨fun a b => lexLeP_total a.data b.data⟩

instance : IsTrans String strLe := ⟨fun a b c => lexLeP_trans a.data b.data c.data⟩

/-- Chronological strict order on dates (the order of ISO date text). -/
def dateLT (a b : Date) : Prop :=
  a.year < b.year
    ∨ (a.year = b.year
        ∧ (a.month < b.month ∨ (a.month = b.month ∧ a.day < b.day)))

instance : DecidableRel dateLT := fun _ _ =>
  inferInstanceAs (Decidable (_ ∨ _))

/-- The row order produced by `ORDER BY date DESC, created_at DESC` in
`get_transactions`: `recentLE a b` holds when row `a` may appear before row
`b`. -/
def recentLE (a b : Transaction) : Prop :=
  dateLT b.date a.date
    ∨ (b.date.year = a.date.year ∧ b.date.month = a.date.month
        ∧ b.date.day = a.date.day ∧ b.createdAt ≤ a.createdAt)

instance : DecidableRel recentLE := fun _ _ =>
  inferInstanceAs (Decidable (_ ∨ _))

instance : IsTotal Transaction recentLE :=
  ⟨fun a b => by simp only [recentLE, dateLT]; omega⟩

instance : IsTrans Transaction recentLE :=
  ⟨fun a b c => by simp only [recentLE, dateLT]; omega⟩

/-- `get_transactions` from `src/main.py`:
`SELECT * FROM transactions ORDER BY date DESC, created_at DESC`, with
`LIMIT {limit}` appended only when `limit` is truthy — so Python's
`if limit:` treats `limit=0` like no limit at all. -/
def get_transactions (limit : Option Nat) (db : List Transaction) : List Transaction :=
  match limit with
  | none => List.insertionSort recentLE db
  | some k =>
    if k = 0 then List.insertionSort recentLE db
    else (List.insertionSort recentLE db).take k

/-! ### Top sources (`analytics` route)

`df[df['type'] == t].groupby('source')['amount'].sum()` produces one entry per
distinct source, keyed in ascending string order (pandas `groupby` sorts its
keys); `.sort_values(ascending=False)` then reorders by summed amount
descending, keeping the relative order of equal sums; `.head(n)` truncates. -/

/-- An entry of the per-source series: (source label, summed amount). -/
abbrev SEntry := String × ℤ

/-- The comparator of `.sort_values(ascending=False)`: descending by summed
amount. -/
def bySum (a b : SEntry) : Prop := b.2 ≤ a.2

instance : DecidableRel bySum := fun _ _ => inferInstanceAs (Decidable (_ ≤ _))

instance : IsTotal SEntry bySum := ⟨fun a b => Int.le_total b.2 a.2⟩

instance : IsTrans SEntry bySum := ⟨fun _ _ _ h1 h2 => le_trans h2 h1⟩

/-- `groupby('source')['amount'].sum()` over the rows of one type: distinct
sources in ascending string order, each with the sum of `amount` over its
group. -/
def sourceSums (t : TxType) (txs : List Transaction) : List SEntry :=
  let l := txs.filter (fun tx => tx.type == t)
  (List.insertionSort strLe ((l.map (·.source)).dedup)).map
    (fun s => (s, sumAmounts (l.filter (fun tx => tx.source == s))))

/-- `topSources(type, n)`: sort the per-source sums descending and keep the
first `n` entries (`.head(n)`). -/
def top_sources (t : TxType) (n : Nat) (txs : List Transaction) : List SEntry :=
  (List.insertionSort bySum (sourceSums t txs)).take n

/-- The order actually realised by `topSources`: strictly greater sum first,
equal sums in ascending source order. -/
def rankR (x y : SEntry) : Prop := y.2 < x.2 ∨ (x.2 = y.2 ∧ strLe x.1 y.1)

/-! ### Breakdown chart (`generate_chart`)

`SELECT source, SUM(amount) FROM transactions WHERE type = ? GROUP BY source
ORDER BY total DESC`.  The group rows are the per-source sums (`sourceSums`);
`ORDER BY total DESC` is the `bySum` sort.  When the query returns no rows the
function returns `None` and no chart is produced; otherwise the labels, values
and the center total `sum(amounts)` are handed to the renderer. -/

structure ChartData where
  sources : List String
  amounts : List ℤ
  total : ℤ
deriving DecidableEq, Repr

/-- `generate_chart` from `src/main.py`, modelled as the chart data it feeds to
the pie renderer (`None` = no chart to produce). -/
def generate_chart (t : TxType) (txs : List Transaction) : Option ChartData :=
  if List.insertionSort bySum (sourceSums t txs) = [] then none
  else some
    { sources := (List.insertionSort bySum (sourceSums t txs)).map Prod.fst
      amounts := (List.insertionSort bySum (sourceSums t txs)).map Prod.snd
      total := ((List.insertionSort bySum (sourceSums t txs)).map Prod.snd).sum }

/-! ### Monthly series and trend chart (`generate_trend_chart`)

`df['month'] = df['date'].dt.to_period('M')` truncates each date to
(year, month); `df.groupby(['month', 'type'])['amount'].sum()` sums per
(month, type) group with keys sorted ascending; `.unstack(fill_value=0)`
pivots the types into columns, creating a column only for types present in
the data and writing 0 into cells whose (month, type) group is absent.  The
plot loop draws one line per column whose name appears in the `colors`
dict. -/

/-- A calendar month: (year, month), the value of `to_period('M')`. -/
abbrev Month := Nat × Nat

def txMonth (tx : Transaction) : Month := (tx.date.year, tx.date.month)

def monthLE (a b : Month) : Prop := a.1 < b.1 ∨ (a.1 = b.1 ∧ a.2 ≤ b.2)

def monthLT (a b : Month) : Prop := a.1 < b.1 ∨ (a.1 = b.1 ∧ a.2 < b.2)

instance : DecidableRel monthLE := fun _ _ => inferInstanceAs (Decidable (_ ∨ _))

instance : DecidableRel monthLT := fun _ _ => inferInstanceAs (Decidable (_ ∨ _))

instance : IsTotal Month monthLE := ⟨fun a b => by simp only [monthLE]; omega⟩

instance : IsTrans Month monthLE := ⟨fun a b c => by simp only [monthLE]; omega⟩

/-- The row index of the pivot table: the distinct months of the data in
ascending order. -/
def monthsOf (txs : List Transaction) : List Month :=
  List.insertionSort monthLE ((txs.map txMonth).dedup)

/-- The column label pandas uses for each type. -/
def typeName : TxType → String
  | .income => "income"
  | .expense => "expense"
  | .investment => "investment"

def colLE (a b : TxType) : Prop := strLe (typeName a) (typeName b)

instance : DecidableRel colLE := fun _ _ => inferInstanceAs (Decidable (strLe _ _))

instance : IsTotal TxType colLE := ⟨fun _ _ => lexLeP_total _ _⟩

instance : IsTrans TxType colLE := ⟨fun _ _ _ h1 h2 => lexLeP_trans _ _ _ h1 h2⟩

/-- The columns of the pivot table: the distinct types present in the data,
in ascending column-name order (`unstack` creates a column only for types
appearing in at least one group). -/
def typeCols (txs : List Transaction) : List TxType :=
  List.insertionSort colLE ((txs.map (·.type)).dedup)

/-- Whether the (month, type) group is present in the grouped data. -/
def hasGroup (txs : List Transaction) (m : Month) (t : TxType) : Bool :=
  txs.any (fun tx => txMonth tx == m && tx.type == t)

/-- The grouped sum of `amount` over the (month, type) group. -/
def cellSum (txs : List Transaction) (m : Month) (t : TxType) : ℤ :=
  sumAmounts (txs.filter (fun tx => txMonth tx == m && tx.type == t))

/-- The pivot-table cell: the group's sum when the group exists, else the
`fill_value=0`. -/
def cellVal (txs : List Transaction) (m : Month) (t : TxType) : ℤ :=
  if hasGroup txs m t then cellSum txs m t else 0

/-- `monthly_data`: the pivot table, one row per month in ascending order, one
cell per (row month, column type). -/
def monthly_data (txs : List Transaction) : List (Month × List (TxType × ℤ)) :=
  (monthsOf txs).map (fun m => (m, (typeCols txs).map (fun t => (t, cellVal txs m t))))

/-- One plotted line of the trend chart. -/
structure TrendSeries where
  lineType : TxType
  points : List (Month × ℤ)
deriving DecidableEq, Repr

/-- The keys of the `colors` dict in `generate_trend_chart`; only columns
whose name is such a key are plotted. -/
def trendColors : List TxType := [.income, .expense, .investment]

/-- `generate_trend_chart` from `src/main.py`, modelled as the line series it
plots (`None` = the `df.empty` / `monthly_data.empty` early returns). -/
def generate_trend_chart (txs : List Transaction) : Option (List TrendSeries) :=
  if txs = [] then none
  else if monthly_data txs = [] then none
  else some ((typeCols txs).filterMap (fun t =>
    if trendColors.contains t then
      some ⟨t, (monthly_data txs).map (fun row => (row.1, (row.2.lookup t).getD 0))⟩
    else none))

/-! ### Write paths: JSON API, spreadsheet import, deletion

`api_add_transaction` validates field presence, the type against the closed
three-value list, and the parsed amount against `amount < 0` before inserting.
`upload_file` drops rows missing a required field (`dropna`), rows whose
amount is non-numeric (`to_numeric(errors='coerce')` + `dropna`), rows with a
negative amount, and rows whose type is not in the valid list, then inserts
the survivors; if none survive it inserts nothing and flashes an error.
`api_delete_transaction` deletes by id and reports 404 when no row matched. -/

/-- `data['type'] in ['income', 'expense', 'investment']`, returning the
parsed member of the closed set. -/
def parseType (s : String) : Option TxType :=
  if s = "income" then some .income
  else if s = "expense" then some .expense
  else if s = "investment" then some .investment
  else none

/-- The JSON body of `POST /api/transactions`.  A `none` field is a missing
key; `amountField = some none` is a present amount on which `float()` raises
(`ValueError`/`TypeError`), `some (some a)` a successfully parsed amount. -/
structure ApiPayload where
  dateField : Option Date
  typeField : Option String
  sourceField : Option String
  amountField : Option (Option ℤ)
  descField : Option String
deriving DecidableEq, Repr

/-- `api_add_transaction` from `src/main.py`: returns the new database state,
the next autoincrement id, and the HTTP status (201 created, 400 rejected).
Validation order follows the code: required fields, then transaction type,
then amount parse and `amount < 0`. -/
def api_add_transaction (db : List Transaction) (nextId now : Nat) (p : ApiPayload) :
    (List Transaction × Nat) × Nat :=
  match p.dateField, p.typeField, p.sourceField, p.amountField with
  | some d, some ts, some src, some araw =>
    match parseType ts with
    | none => ((db, nextId), 400)
    | some t =>
      match araw with
      | none => ((db, nextId), 400)
      | some a =>
        if a < 0 then ((db, nextId), 400)
        else ((db ++ [{ id := nextId, date := d, type := t, source := src,
                        amount := a, description := p.descField.getD "",
                        createdAt := now }], nextId + 1), 201)
  | _, _, _, _ => ((db, nextId), 400)

/-- A parsed spreadsheet row.  `none` cells are missing values (NaN after
`read_excel`); the amount cell distinguishes missing (`none`), present but
non-numeric (`some none`, coerced to NaN by `to_numeric`), and numeric
(`some (some a)`). -/
structure SheetRow where
  dateCell : Option Date
  typeCell : Option String
  sourceCell : Option String
  amountCell : Option (Option ℤ)
  descCell : Option String
deriving DecidableEq, Repr

/-- `df.dropna(subset=['date', 'type', 'source', 'amount'])`: every required
cell present. -/
def rowComplete (r : SheetRow) : Bool :=
  r.dateCell.isSome && r.typeCell.isSome && r.sourceCell.isSome && r.amountCell.isSome

/-- `pd.to_numeric(df['amount'], errors='coerce')` followed by
`dropna(subset=['amount'])`: the amount cell is numeric. -/
def amountNumeric (r : SheetRow) : Bool :=
  match r.amountCell with
  | some (some _) => true
  | _ => false

/-- `df = df[df['amount'] >= 0]`. -/
def amountNonneg (r : SheetRow) : Bool :=
  match r.amountCell with
  | some (some a) => decide (0 ≤ a)
  | _ => false

/-- `df = df[df['type'].isin(['income', 'expense', 'investment'])]`. -/
def typeValidRow (r : SheetRow) : Bool :=
  match r.typeCell with
  | some ts => (parseType ts).isSome
  | none => false

/-- The rows surviving the four validation passes of `upload_file`, in their
original order. -/
def validRows (rows : List SheetRow) : List SheetRow :=
  (((rows.filter rowComplete).filter amountNumeric).filter amountNonneg).filter typeValidRow

/-- The transaction inserted for a surviving row (defaults are never reached
on rows that passed validation). -/
def rowTx (i now : Nat) (r : SheetRow) : Transaction :=
  { id := i
    date := r.dateCell.getD ⟨0, 0, 0⟩
    type := (r.typeCell.bind parseType).getD .income
    source := r.sourceCell.getD ""
    amount := r.amountCell.join.getD 0
    description := r.descCell.getD ""
    createdAt := now }

/-- `upload_file` from `src/main.py`: validate, and either flash an error and
insert nothing (no surviving row), or insert every surviving row.  The `Bool`
is the flash outcome (`true` = the success flash). -/
def upload_file (db : List Transaction) (startId now : Nat) (rows : List SheetRow) :
    (List Transaction × Nat) × Bool :=
  if validRows rows = [] then ((db, startId), false)
  else ((db ++ (validRows rows).mapIdx (fun i r => rowTx (startId + i) now r),
         startId + (validRows rows).length), true)

/-- `api_delete_transaction` from `src/main.py`:
`DELETE FROM transactions WHERE id = ?`; `rowcount == 0` yields the 404
not-found response (and the table is untouched), otherwise 200. -/
def api_delete_transaction (db : List Transaction) (tid : Nat) : List Transaction × Nat :=
  if (db.filter (fun tx => tx.id == tid)).length = 0 then (db, 404)
  else (db.filter (fun tx => !(tx.id == tid)), 200)

/-- One mutating request against the store. -/
inductive Op
  | apiAdd (now : Nat) (p : ApiPayload)
  | upload (now : Nat) (rows : List SheetRow)
  | delete (tid : Nat)

/-- Apply one request to (database, next autoincrement id). -/
def applyOp (st : List Transaction × Nat) : Op → List Transaction × Nat
  | .apiAdd now p => (api_add_transaction st.1 st.2 now p).1
  | .upload now rows => (upload_file st.1 st.2 now rows).1
  | .delete tid => ((api_delete_transaction st.1 tid).1, st.2)

def runOps (st : List Transaction × Nat) (ops : List Op) : List Transaction × Nat :=
  ops.foldl applyOp st

/-- The storage invariant of the spec: every persisted amount is
non-negative.  (The companion invariant — `type` lies in the closed
three-value set — holds by construction in this embedding, since every stored
`Transaction` carries a `TxType`.) -/
def AmountsOk (db : List Transaction) : Prop :=
  ∀ tx ∈ db, 0 ≤ tx.amount

/-! ### Concrete data

`demoTxs` is the spec's worked scenario.  The remaining lists exercise the
edge cases settled below: a tie between two sources, a one-row store queried
with `limit=0`, spreadsheet rows failing each validation pass, and payloads
the API must reject. -/

/-- The spec's scenario: Salary 5000 on 2023-11-01, Taxes 400 on 2023-11-09,
Salary 5200 on 2023-12-01. -/
def demoTxs : List Transaction :=
  [ ⟨1, ⟨2023, 11, 1⟩, .income, "Salary", 5000, "", 1⟩,
    ⟨2, ⟨2023, 11, 9⟩, .expense, "Taxes", 400, "", 2⟩,
    ⟨3, ⟨2023, 12, 1⟩, .income, "Salary", 5200, "", 3⟩ ]

/-- Two expense sources with equal sums, source "b" encountered first. -/
def txsTie : List Transaction :=
  [ ⟨1, ⟨2024, 1, 1⟩, .expense, "b", 5, "", 1⟩,
    ⟨2, ⟨2024, 1, 2⟩, .expense, "a", 5, "", 2⟩ ]

/-- A store holding a single transaction. -/
def dbOne : List Transaction :=
  [⟨1, ⟨2024, 1, 1⟩, .income, "Salary", 5, "", 1⟩]

/-- A payload whose type is outside the closed three-value set. -/
def badTypePayload : ApiPayload :=
  ⟨some ⟨2024, 1, 5⟩, some "transfer", some "Bank", some (some 10), none⟩

/-- A payload with a negative parsed amount. -/
def negAmountPayload : ApiPayload :=
  ⟨some ⟨2024, 1, 6⟩, some "income", some "Bank", some (some (-3)), none⟩

/-- Spreadsheet rows: one valid row followed by one row failing each
validation pass (missing date, non-numeric amount, negative amount, invalid
type). -/
def demoRows : List SheetRow :=
  [ ⟨some ⟨2024, 1, 1⟩, some "income", some "Salary", some (some 100), none⟩,
    ⟨none, some "income", some "Salary", some (some 50), none⟩,
    ⟨some ⟨2024, 1, 2⟩, some "expense", some "Rent", some none, none⟩,
    ⟨some ⟨2024, 1, 3⟩, some "expense", some "Rent", some (some (-5)), none⟩,
    ⟨some ⟨2024, 1, 4⟩, some "transfer", some "X", some (some 10), none⟩ ]

/-- A mixed batch of mutating requests. -/
def demoOps : List Op :=
  [.apiAdd 0 negAmountPayload, .upload 0 demoRows, .delete 1]

/-! ### Theorems -/

theorem foldl_applyRow_not_mem (rows : List (TxType × ℤ)) (d : TxType → ℤ) (t : TxType)
    (h : t ∉ rows.map Prod.fst) : rows.foldl applyRow d t = d t := by
  induction rows generalizing d with
  | nil => rfl
  | cons r rs ih =>
    simp only [List.map_cons, List.mem_cons, not_or] at h
    rw [List.foldl_cons, ih _ h.2]
    simp [applyRow, h.1]

theorem foldl_applyRow_mem (rows : List (TxType × ℤ)) (d : TxType → ℤ) (t : TxType) (v : ℤ)
    (hnd : (rows.map Prod.fst).Nodup) (hm : (t, v) ∈ rows) :
    rows.foldl applyRow d t = v := by
  induction rows generalizing d with
  | nil => cases hm
  | cons r rs ih =>
    simp only [List.map_cons, List.nodup_cons] at hnd
    rcases List.mem_cons.mp hm with h | h
    · subst h
      rw [List.foldl_cons, foldl_applyRow_not_mem rs _ t (by simpa using hnd.1)]
      simp [applyRow]
    · rw [List.foldl_cons]
      exact ih (applyRow d r) hnd.2 h

theorem keys_typeGroups (txs : List Transaction) :
    (typeGroups txs).map Prod.fst = (txs.map (·.type)).dedup := by
  simp [typeGroups, List.map_map, Function.comp_def]

/-- The dictionary built by `calculate_totals` assigns to each type exactly the
sum of `amount` over the transactions of that type (0 when the type has no
transactions). -/
theorem totalsFun_eq (txs : List Transaction) (t : TxType) :
    (typeGroups txs).foldl applyRow (fun _ => 0) t
      = sumAmounts (txs.filter (fun tx => tx.type == t)) := by
  by_cases h : t ∈ (txs.map (·.type)).dedup
  · apply foldl_applyRow_mem
    · rw [keys_typeGroups]
      exact (txs.map (·.type)).nodup_dedup
    · exact List.mem_map.mpr ⟨t, h, rfl⟩
  · rw [foldl_applyRow_not_mem _ _ _ (by rw [keys_typeGroups]; exact h)]
    have hnone : txs.filter (fun tx => tx.type == t) = [] := by
      rw [List.filter_eq_nil_iff]
      intro tx htx hbeq
      exact h (List.mem_dedup.mpr (List.mem_map.mpr ⟨tx, htx, eq_of_beq hbeq⟩))
    rw [hnone]
    rfl

theorem calculate_totals_ofType (txs : List Transaction) (t : TxType) :
    (calculate_totals txs).ofType t = sumAmounts (txs.filter (fun tx => tx.type == t)) := by
  cases t <;> simpa [calculate_totals, Totals.ofType] using totalsFun_eq txs _

/-- C1: `totalsByType()` returns, for each of the three types, the arithmetic
sum of `amount` over exactly the transactions of that type (0 when no
transaction of that type exists, never a missing key); `net_savings` equals the
income total minus the expense total; and on the empty list all four results
are 0. -/
theorem calculate_totals_spec (txs : List Transaction) :
    (calculate_totals txs).total_income
        = sumAmounts (txs.filter (fun tx => tx.type == .income))
      ∧ (calculate_totals txs).total_expense
        = sumAmounts (txs.filter (fun tx => tx.type == .expense))
      ∧ (calculate_totals txs).total_investment
        = sumAmounts (txs.filter (fun tx => tx.type == .investment))
      ∧ (calculate_totals txs).net_savings
        = (calculate_totals txs).total_income - (calculate_totals txs).total_expense
      ∧ calculate_totals [] = ⟨0, 0, 0, 0⟩ := by
  refine ⟨?_, ?_, ?_, ?_, ?_⟩
  · simpa [Totals.ofType] using calculate_totals_ofType txs .income
  · simpa [Totals.ofType] using calculate_totals_ofType txs .expense
  · simpa [Totals.ofType] using calculate_totals_ofType txs .investment
  · rfl
  · show Totals.mk 0 0 0 (0 - 0) = ⟨0, 0, 0, 0⟩
    norm_num

/-- C9 (amended): `get_transactions` returns the stored transactions ordered by
date descending with ties broken by `created_at` descending; a nonzero limit
`k` returns the first `k` rows of that ordering, while limit `0` is treated by
`if limit:` as no limit and returns every row. -/
theorem get_transactions_spec (db : List Transaction) :
    (∀ limit, List.Sorted recentLE (get_transactions limit db))
      ∧ List.Perm (get_transactions none db) db
      ∧ (∀ k, k ≠ 0 → get_transactions (some k) db = (get_transactions none db).take k)
      ∧ get_transactions (some 0) db = get_transactions none db := by
  have hs : List.Sorted recentLE (List.insertionSort recentLE db) :=
    List.sorted_insertionSort recentLE db
  refine ⟨?_, List.perm_insertionSort recentLE db, ?_, rfl⟩
  · intro limit
    match limit with
    | none => exact hs
    | some k =>
      by_cases hk : k = 0
      · simpa [get_transactions, hk] using hs
      · simp only [get_transactions, hk, if_false]
        exact List.Pairwise.sublist (List.take_sublist _ _) hs
  · intro k hk
    simp [get_transactions, hk]

theorem orderedInsert_bySum_rank (a : SEntry) :
    ∀ l : List SEntry, List.Sorted rankR l →
      (∀ b ∈ l, a.2 = b.2 → strLe a.1 b.1) →
      List.Sorted rankR (List.orderedInsert bySum a l)
  | [], _, _ => List.sorted_singleton a
  | b :: l, hs, ha => by
    rw [List.orderedInsert]
    by_cases h : bySum a b
    · rw [if_pos h]
      have hab : rankR a b := by
        rcases lt_or_eq_of_le h with h' | h'
        · exact Or.inl h'
        · exact Or.inr ⟨h'.symm, ha b (List.mem_cons_self b l) h'.symm⟩
      refine List.Pairwise.cons ?_ hs
      intro c hc
      rcases List.mem_cons.mp hc with rfl | hc
      · exact hab
      · have hbc : rankR b c := List.rel_of_sorted_cons hs c hc
        have hcb : c.2 ≤ b.2 := by
          rcases hbc with h' | ⟨h', _⟩
          · exact le_of_lt h'
          · exact le_of_eq h'.symm
        rcases lt_or_eq_of_le (le_trans hcb h) with h' | h'
        · exact Or.inl h'
        · exact Or.inr ⟨h'.symm, ha c (List.mem_cons_of_mem b hc) h'.symm⟩
    · rw [if_neg h]
      have hba : a.2 < b.2 := by
        simp only [bySum, not_le] at h
        exact h
      refine List.Pairwise.cons ?_ ?_
      · intro c hc
        rcases (List.mem_orderedInsert bySum).mp hc with rfl | hc
        · exact Or.inl hba
        · exact List.rel_of_sorted_cons hs c hc
      · exact orderedInsert_bySum_rank a l hs.of_cons
          (fun c hc hc' => ha c (List.mem_cons_of_mem b hc) hc')

/-- Stability of the value sort: sorting a source-ascending series by amount
descending yields a list sorted by (amount descending, then source
ascending). -/
theorem insertionSort_bySum_rank :
    ∀ l : List SEntry, l.Pairwise (fun x y => strLe x.1 y.1) →
      List.Sorted rankR (List.insertionSort bySum l)
  | [], _ => List.sorted_nil
  | a :: l, hl => by
    rw [List.insertionSort]
    rcases List.pairwise_cons.mp hl with ⟨hhead, htail⟩
    exact orderedInsert_bySum_rank a _ (insertionSort_bySum_rank l htail)
      (fun b hb _ => hhead b ((List.mem_insertionSort bySum).mp hb))

theorem sourceSums_key_sorted (t : TxType) (txs : List Transaction) :
    (sourceSums t txs).Pairwise (fun x y => strLe x.1 y.1) := by
  unfold sourceSums
  exact List.Pairwise.map _ (fun a b h => h) (List.sorted_insertionSort strLe _)

/-- C3 (amended): `topSources(type, n)` has length at most `n`, its per-source
sums are non-increasing, and entries with equal sums appear in ascending
source-name order (the order the group-by sorted them into), so the result is
deterministic. -/
theorem top_sources_spec (t : TxType) (n : Nat) (txs : List Transaction) :
    (top_sources t n txs).length ≤ n
      ∧ List.Sorted rankR (top_sources t n txs) := by
  constructor
  · exact List.length_take_le n _
  · exact List.Pairwise.sublist (List.take_sublist _ _)
      (insertionSort_bySum_rank _ (sourceSums_key_sorted t txs))

theorem sumAmounts_cons (a : Transaction) (l : List Transaction) :
    sumAmounts (a :: l) = a.amount + sumAmounts l := by
  simp [sumAmounts]

theorem sumAmounts_split (p : Transaction → Bool) (l : List Transaction) :
    sumAmounts (l.filter p) + sumAmounts (l.filter (fun x => !(p x))) = sumAmounts l := by
  induction l with
  | nil => rfl
  | cons a l ih =>
    by_cases h : p a <;> simp [List.filter_cons, h, sumAmounts_cons] <;> omega

/-- Summing the per-group sums over a duplicate-free list of keys covering
every row gives the total sum. -/
theorem sum_groups_eq (key : Transaction → String) :
    ∀ (K : List String) (l : List Transaction), K.Nodup →
      (∀ x ∈ l, key x ∈ K) →
      (K.map (fun s => sumAmounts (l.filter (fun x => key x == s)))).sum = sumAmounts l
  | [], l, _, hall => by
    cases l with
    | nil => rfl
    | cons a l => exact absurd (hall a (List.mem_cons_self a l)) (List.not_mem_nil _)
  | s :: K, l, hnd, hall => by
    rcases List.nodup_cons.mp hnd with ⟨hs, hndK⟩
    rw [List.map_cons, List.sum_cons]
    have hrest : ∀ s' ∈ K,
        l.filter (fun x => key x == s')
          = (l.filter (fun x => !(key x == s))).filter (fun x => key x == s') := by
      intro s' hs'
      rw [List.filter_filter]
      apply List.filter_congr
      intro x _
      by_cases hx : key x == s'
      · have hxs : ¬ (key x == s) = true := by
          intro hxs
          apply hs
          rw [(eq_of_beq hxs).symm.trans (eq_of_beq hx)]
          exact hs'
        simp [hx, hxs]
      · simp [hx]
    have hmap : K.map (fun s' => sumAmounts (l.filter (fun x => key x == s')))
        = K.map (fun s' => sumAmounts
            ((l.filter (fun x => !(key x == s))).filter (fun x => key x == s'))) :=
      List.map_congr_left (fun s' hs' => by rw [hrest s' hs'])
    have hall' : ∀ x ∈ l.filter (fun x => !(key x == s)), key x ∈ K := by
      intro x hx
      rcases List.mem_filter.mp hx with ⟨hxl, hxne⟩
      rcases List.mem_cons.mp (hall x hxl) with h | h
      · rw [h] at hxne
        simp at hxne
      · exact h
    rw [hmap, sum_groups_eq key K (l.filter (fun x => !(key x == s))) hndK hall',
      ← sumAmounts_split (fun x => key x == s) l]

theorem sourceSums_sum (t : TxType) (txs : List Transaction) :
    ((sourceSums t txs).map Prod.snd).sum = (calculate_totals txs).ofType t := by
  rw [calculate_totals_ofType]
  unfold sourceSums
  rw [List.map_map]
  have hnd : (List.insertionSort strLe
      (((txs.filter (fun tx => tx.type == t)).map (·.source)).dedup)).Nodup :=
    (List.perm_insertionSort strLe
        (((txs.filter (fun tx => tx.type == t)).map (·.source)).dedup)).nodup_iff.mpr
      (((txs.filter (fun tx => tx.type == t)).map (·.source)).nodup_dedup)
  have hall : ∀ x ∈ txs.filter (fun tx => tx.type == t),
      x.source ∈ List.insertionSort strLe
        (((txs.filter (fun tx => tx.type == t)).map (·.source)).dedup) := by
    intro x hx
    rw [List.mem_insertionSort, List.mem_dedup]
    exact List.mem_map.mpr ⟨x, hx, rfl⟩
  exact sum_groups_eq (·.source) _ _ hnd hall

/-- C4: the values of `breakdownBySource(type)` sum exactly to
`totalsByType()[type]`, and the chart's center total (computed as the sum of
the rendered values) equals that same aggregate total. -/
theorem generate_chart_total_spec (t : TxType) (txs : List Transaction) :
    ((sourceSums t txs).map Prod.snd).sum = (calculate_totals txs).ofType t
      ∧ ∀ cd, generate_chart t txs = some cd →
          cd.total = (calculate_totals txs).ofType t ∧ cd.amounts.sum = cd.total := by
  refine ⟨sourceSums_sum t txs, ?_⟩
  intro cd hcd
  unfold generate_chart at hcd
  by_cases hdata : List.insertionSort bySum (sourceSums t txs) = []
  · rw [if_pos hdata] at hcd
    cases hcd
  · rw [if_neg hdata] at hcd
    have hperm : List.Perm ((List.insertionSort bySum (sourceSums t txs)).map Prod.snd)
        ((sourceSums t txs).map Prod.snd) :=
      (List.perm_insertionSort bySum (sourceSums t txs)).map Prod.snd
    cases hcd
    exact ⟨by rw [hperm.sum_eq]; exact sourceSums_sum t txs, rfl⟩

theorem monthLT_of_le_ne {a b : Month} (h1 : monthLE a b) (h2 : a ≠ b) : monthLT a b := by
  rw [Ne, Prod.ext_iff] at h2
  simp only [monthLE, monthLT] at *
  omega

theorem cellVal_eq (txs : List Transaction) (m : Month) (t : TxType) :
    cellVal txs m t = cellSum txs m t := by
  unfold cellVal
  by_cases h : hasGroup txs m t
  · rw [if_pos h]
  · rw [if_neg h]
    have : txs.filter (fun tx => txMonth tx == m && tx.type == t) = [] := by
      rw [List.filter_eq_nil_iff]
      intro tx htx hpred
      exact h (List.any_eq_true.mpr ⟨tx, htx, hpred⟩)
    rw [cellSum, this]
    rfl

theorem lookup_map_self {α β : Type} [DecidableEq α] (f : α → β) :
    ∀ (L : List α) (t : α), t ∈ L → (L.map (fun a => (a, f a))).lookup t = some (f t)
  | a :: L, t, ht => by
    by_cases h : t = a
    · subst h
      simp [List.lookup]
    · have hne : (t == a) = false := beq_eq_false_iff_ne.mpr h
      rcases List.mem_cons.mp ht with h' | h'
      · exact absurd h' h
      · rw [List.map_cons, List.lookup, hne]
        exact lookup_map_self f L t h'

theorem mem_monthsOf {txs : List Transaction} {m : Month} :
    m ∈ monthsOf txs ↔ ∃ tx ∈ txs, txMonth tx = m := by
  rw [monthsOf, List.mem_insertionSort, List.mem_dedup, List.mem_map]

theorem mem_typeCols {txs : List Transaction} {t : TxType} :
    t ∈ typeCols txs ↔ ∃ tx ∈ txs, tx.type = t := by
  rw [typeCols, List.mem_insertionSort, List.mem_dedup, List.mem_map]

/-- C2: `monthlySeries()` rows are in strictly ascending chronological month
order; every (month, type) combination present in the raw data appears with
its exact grouped sum; and a type present in the data but absent in some month
of the series appears there as an explicit 0 cell, not a missing key. -/
theorem monthly_data_spec (txs : List Transaction) :
    ((monthly_data txs).map Prod.fst).Pairwise monthLT
      ∧ (∀ tx ∈ txs, ∃ row ∈ monthly_data txs, row.1 = txMonth tx
          ∧ row.2.lookup tx.type = some (cellSum txs (txMonth tx) tx.type))
      ∧ (∀ m t, m ∈ (monthly_data txs).map Prod.fst → t ∈ typeCols txs →
          hasGroup txs m t = false →
          ∃ row ∈ monthly_data txs, row.1 = m ∧ row.2.lookup t = some 0) := by
  have hkeys : (monthly_data txs).map Prod.fst = monthsOf txs := by
    simp [monthly_data, List.map_map, Function.comp_def]
  have hrow : ∀ m ∈ monthsOf txs, ∀ t ∈ typeCols txs,
      ∃ row ∈ monthly_data txs, row.1 = m ∧ row.2.lookup t = some (cellVal txs m t) := by
    intro m hm t ht
    refine ⟨(m, (typeCols txs).map (fun t' => (t', cellVal txs m t'))), ?_, rfl, ?_⟩
    · exact List.mem_map.mpr ⟨m, hm, rfl⟩
    · exact lookup_map_self (cellVal txs m) (typeCols txs) t ht
  refine ⟨?_, ?_, ?_⟩
  · rw [hkeys]
    have hsorted : (monthsOf txs).Pairwise monthLE :=
      List.sorted_insertionSort monthLE _
    have hnd : (monthsOf txs).Nodup :=
      (List.perm_insertionSort monthLE ((txs.map txMonth).dedup)).nodup_iff.mpr
        ((txs.map txMonth).nodup_dedup)
    exact (hsorted.and hnd).imp (fun h => monthLT_of_le_ne h.1 h.2)
  · intro tx htx
    have hm : txMonth tx ∈ monthsOf txs := mem_monthsOf.mpr ⟨tx, htx, rfl⟩
    have ht : tx.type ∈ typeCols txs := mem_typeCols.mpr ⟨tx, htx, rfl⟩
    rcases hrow (txMonth tx) hm tx.type ht with ⟨row, hrowm, h1, h2⟩
    exact ⟨row, hrowm, h1, by rw [h2, cellVal_eq]⟩
  · intro m t hm ht hng
    rw [hkeys] at hm
    rcases hrow m hm t ht with ⟨row, hrowm, h1, h2⟩
    refine ⟨row, hrowm, h1, ?_⟩
    rw [h2, cellVal]
    rw [hng]
    rfl

theorem trendColors_contains (t : TxType) : trendColors.contains t = true := by
  cases t <;> rfl

theorem monthly_data_ne_nil {txs : List Transaction} (h : txs ≠ []) :
    monthly_data txs ≠ [] := by
  intro hmd
  rcases List.exists_mem_of_ne_nil txs h with ⟨tx, htx⟩
  have hm : txMonth tx ∈ monthsOf txs := mem_monthsOf.mpr ⟨tx, htx, rfl⟩
  have : (txMonth tx, (typeCols txs).map (fun t' => (t', cellVal txs (txMonth tx) t')))
      ∈ monthly_data txs := List.mem_map.mpr ⟨txMonth tx, hm, rfl⟩
  rw [hmd] at this
  exact List.not_mem_nil _ this

/-- C6: the trend chart contains a line series exactly for the transaction
types that occur at least once in the raw data; a type with no transactions is
omitted entirely rather than drawn as an all-zero line. -/
theorem generate_trend_chart_types (txs : List Transaction) (t : TxType) :
    (∃ l, generate_trend_chart txs = some l ∧ ∃ s ∈ l, s.lineType = t)
      ↔ ∃ tx ∈ txs, tx.type = t := by
  by_cases hempty : txs = []
  · subst hempty
    simp [generate_trend_chart]
  · rw [generate_trend_chart, if_neg hempty, if_neg (monthly_data_ne_nil hempty)]
    constructor
    · rintro ⟨l, hl, s, hs, rfl⟩
      rcases Option.some.injEq _ _ ▸ hl with rfl
      rcases List.mem_filterMap.mp hs with ⟨t', ht', hft'⟩
      rw [trendColors_contains t', if_pos rfl] at hft'
      · cases hft'
        exact mem_typeCols.mp ht'
    · intro hex
      have ht : t ∈ typeCols txs := mem_typeCols.mpr hex
      refine ⟨_, rfl, ⟨t, (monthly_data txs).map
        (fun row => (row.1, (row.2.lookup t).getD 0))⟩, ?_, rfl⟩
      apply List.mem_filterMap.mpr
      exact ⟨t, ht, by rw [trendColors_contains t, if_pos rfl]⟩

theorem validRows_amount {rows : List SheetRow} {r : SheetRow}
    (hr : r ∈ validRows rows) : ∃ a, r.amountCell = some (some a) ∧ 0 ≤ a := by
  rcases List.mem_filter.mp hr with ⟨hr', _⟩
  rcases List.mem_filter.mp hr' with ⟨_, hnn⟩
  unfold amountNonneg at hnn
  rcases hcell : r.amountCell with _ | acell
  · rw [hcell] at hnn
    cases hnn
  · rcases acell with _ | a
    · rw [hcell] at hnn
      cases hnn
    · rw [hcell] at hnn
      exact ⟨a, rfl, of_decide_eq_true hnn⟩

theorem upload_amounts_ok {db : List Transaction} (startId now : Nat)
    (rows : List SheetRow) (h : AmountsOk db) :
    AmountsOk (upload_file db startId now rows).1.1 := by
  unfold upload_file
  by_cases hv : validRows rows = []
  · rw [if_pos hv]
    exact h
  · rw [if_neg hv]
    intro tx htx
    rcases List.mem_append.mp htx with hl | hr
    · exact h tx hl
    · rcases List.mem_mapIdx.mp hr with ⟨i, hi, htx'⟩
      rcases validRows_amount (List.getElem_mem hi) with ⟨a, hcell, ha⟩
      rw [← htx']
      simp only [rowTx, Option.join, hcell, Option.bind_some, id, Option.getD_some]
      exact ha

theorem apiAdd_amounts_ok {db : List Transaction} (nextId now : Nat) (p : ApiPayload)
    (h : AmountsOk db) : AmountsOk (api_add_transaction db nextId now p).1.1 := by
  unfold api_add_transaction
  rcases p with ⟨pd, pt, ps, pa, pdesc⟩
  rcases pd with _ | d
  · exact h
  rcases pt with _ | ts
  · exact h
  rcases ps with _ | src
  · exact h
  rcases pa with _ | araw
  · exact h
  simp only
  rcases parseType ts with _ | t
  · exact h
  rcases araw with _ | a
  · exact h
  simp only
  by_cases hneg : a < 0
  · rw [if_pos hneg]
    exact h
  · rw [if_neg hneg]
    intro tx htx
    rcases List.mem_append.mp htx with hl | hr
    · exact h tx hl
    · rcases List.mem_singleton.mp hr with rfl
      exact le_of_not_lt hneg

theorem delete_amounts_ok {db : List Transaction} (tid : Nat) (h : AmountsOk db) :
    AmountsOk (api_delete_transaction db tid).1 := by
  unfold api_delete_transaction
  by_cases hc : (db.filter (fun tx => tx.id == tid)).length = 0
  · rw [if_pos hc]
    exact h
  · rw [if_neg hc]
    intro tx htx
    exact h tx (List.mem_of_mem_filter htx)

/-- C7: every insertion path re-validates its input — a payload whose type is
outside the closed three-value set, or whose amount is negative, is rejected
with HTTP 400 and the store is left untouched — and the invariant
`amount >= 0` holds of every database state reachable by API inserts,
spreadsheet imports and deletions from a state satisfying it.  (Membership of
`type` in the closed set is carried by the `TxType` field itself.) -/
theorem insertion_invariant_spec :
    (∀ db nextId now p ts, p.typeField = some ts → parseType ts = none →
        api_add_transaction db nextId now p = ((db, nextId), 400))
      ∧ (∀ db nextId now p a, p.amountField = some (some a) → a < 0 →
          api_add_transaction db nextId now p = ((db, nextId), 400))
      ∧ (∀ st ops, AmountsOk st.1 → AmountsOk (runOps st ops).1) := by
  refine ⟨?_, ?_, ?_⟩
  · intro db nextId now p ts hts hparse
    unfold api_add_transaction
    rcases p with ⟨pd, pt, ps, pa, pdesc⟩
    cases hts
    rcases pd with _ | d
    · rfl
    rcases ps with _ | src
    · rfl
    rcases pa with _ | araw
    · rfl
    simp only [hparse]
  · intro db nextId now p a ha hneg
    unfold api_add_transaction
    rcases p with ⟨pd, pt, ps, pa, pdesc⟩
    cases ha
    rcases pd with _ | d
    · rfl
    rcases pt with _ | ts
    · rfl
    rcases ps with _ | src
    · rfl
    simp only
    rcases parseType ts with _ | t
    · rfl
    simp only
    rw [if_pos hneg]
  · intro st ops
    induction ops generalizing st with
    | nil => exact fun h => h
    | cons op ops ih =>
      intro h
      refine ih (applyOp st op) ?_
      rcases op with ⟨now, p⟩ | ⟨now, rows⟩ | tid
      · exact apiAdd_amounts_ok st.2 now p h
      · exact upload_amounts_ok st.2 now rows h
      · exact delete_amounts_ok tid h

/-- C8: `deleteTransaction(id)` succeeds (HTTP 200) precisely when a
transaction with that id exists, in which case exactly the rows with that id
are removed; otherwise it returns the 404 not-found response and the stored
transaction set is unchanged. -/
theorem api_delete_transaction_spec (db : List Transaction) (tid : Nat) :
    ((api_delete_transaction db tid).2 = 200 ↔ ∃ tx ∈ db, tx.id = tid)
      ∧ ((¬ ∃ tx ∈ db, tx.id = tid) → api_delete_transaction db tid = (db, 404))
      ∧ ((∃ tx ∈ db, tx.id = tid) →
          api_delete_transaction db tid = (db.filter (fun tx => !(tx.id == tid)), 200)) := by
  have hiff : (db.filter (fun tx => tx.id == tid)).length = 0 ↔ ¬ ∃ tx ∈ db, tx.id = tid := by
    rw [List.length_eq_zero, List.filter_eq_nil_iff]
    constructor
    · rintro hnone ⟨tx, htx, hid⟩
      exact hnone tx htx (beq_iff_eq.mpr hid)
    · intro hno tx htx hbeq
      exact hno ⟨tx, htx, eq_of_beq hbeq⟩
  unfold api_delete_transaction
  by_cases hc : (db.filter (fun tx => tx.id == tid)).length = 0
  · rw [if_pos hc]
    refine ⟨?_, fun _ => rfl, ?_⟩
    · constructor
      · intro h
        simp at h
      · intro h
        exact absurd h (hiff.mp hc)
    · intro hex
      exact absurd hex (hiff.mp hc)
  · rw [if_neg hc]
    have hex : ∃ tx ∈ db, tx.id = tid := by
      by_contra hno
      exact hc (hiff.mpr hno)
    exact ⟨⟨fun _ => hex, fun _ => rfl⟩, fun hno => absurd hex hno, fun _ => rfl⟩

/-- C10: the spreadsheet import inserts exactly the rows surviving validation,
in order — a row is dropped precisely when it misses a required field, has a
non-numeric or negative amount, or has a type outside the three-value set —
and when no row survives the database is unchanged and an error is flashed. -/
theorem upload_file_spec (db : List Transaction) (startId now : Nat) (rows : List SheetRow) :
    (∀ r, r ∈ validRows rows ↔ r ∈ rows ∧ rowComplete r = true ∧ amountNumeric r = true
        ∧ amountNonneg r = true ∧ typeValidRow r = true)
      ∧ (validRows rows = [] → upload_file db startId now rows = ((db, startId), false))
      ∧ (validRows rows ≠ [] →
          upload_file db startId now rows
            = ((db ++ (validRows rows).mapIdx (fun i r => rowTx (startId + i) now r),
                startId + (validRows rows).length), true)) := by
  refine ⟨?_, ?_, ?_⟩
  · intro r
    unfold validRows
    simp only [List.mem_filter]
    tauto
  · intro hv
    unfold upload_file
    rw [if_pos hv]
  · intro hv
    unfold upload_file
    rw [if_neg hv]

/-- C5: on an empty ledger nothing errs: every aggregation returns a
zero/empty result, and both chart adapters return the explicit
no-chart-to-produce signal (`none`) for every chart type. -/
theorem empty_ledger_spec :
    calculate_totals [] = ⟨0, 0, 0, 0⟩
      ∧ (∀ limit, get_transactions limit [] = [])
      ∧ (∀ t n, top_sources t n [] = [])
      ∧ (∀ t, sourceSums t [] = [])
      ∧ monthly_data [] = []
      ∧ (∀ t, generate_chart t [] = none)
      ∧ generate_trend_chart [] = none := by
  refine ⟨by decide, ?_, ?_, fun t => rfl, rfl, fun t => rfl, rfl⟩
  · intro limit
    rcases limit with _ | k
    · rfl
    · by_cases hk : k = 0 <;> simp [get_transactions, hk]
  · intro t n
    simp [top_sources, sourceSums]

/-- C2 witness: in the spec scenario the 2023-12 row carries an explicit 0
cell for the expense column. -/
theorem monthly_data_spec_witness :
    ∃ row ∈ monthly_data demoTxs, row.1 = (2023, 12)
      ∧ row.2.lookup TxType.expense = some 0 :=
  (monthly_data_spec demoTxs).2.2 (2023, 12) .expense (by decide) (by decide) (by decide)

/-- C3 counterexample: sources "b" then "a" with equal sums — the claimed
first-encountered ordering would put "b" first, but the group-by's
alphabetical key order puts "a" first. -/
theorem top_sources_tie_counterexample :
    top_sources .expense 5 txsTie = [("a", 5), ("b", 5)]
      ∧ top_sources .expense 5 txsTie ≠ [("b", 5), ("a", 5)] := by
  decide

/-- C4 witness: the income breakdown of the spec scenario carries center total
10200, the income aggregate. -/
theorem generate_chart_total_witness :
    (ChartData.mk ["Salary"] [10200] 10200).total
        = (calculate_totals demoTxs).ofType .income
      ∧ (ChartData.mk ["Salary"] [10200] 10200).amounts.sum
        = (ChartData.mk ["Salary"] [10200] 10200).total :=
  (generate_chart_total_spec .income demoTxs).2 (ChartData.mk ["Salary"] [10200] 10200)
    (by decide)

/-- C7 witness: a payload with an unknown type and one with a negative amount
are both rejected with 400 leaving the store untouched, and a mixed batch of
requests preserves the non-negativity invariant from the empty store. -/
theorem insertion_invariant_witness :
    api_add_transaction [] 7 0 badTypePayload = (([], 7), 400)
      ∧ api_add_transaction [] 7 0 negAmountPayload = (([], 7), 400)
      ∧ AmountsOk (runOps ([], 1) demoOps).1 :=
  ⟨insertion_invariant_spec.1 [] 7 0 badTypePayload "transfer" rfl (by decide),
   insertion_invariant_spec.2.1 [] 7 0 negAmountPayload (-3) rfl (by decide),
   insertion_invariant_spec.2.2 ([], 1) demoOps
     (fun tx htx => absurd htx (List.not_mem_nil tx))⟩

/-- C8 witness: deleting id 2 from the spec scenario succeeds and removes
exactly that row. -/
theorem api_delete_transaction_witness :
    api_delete_transaction demoTxs 2
      = (demoTxs.filter (fun tx => !(tx.id == 2)), 200) :=
  (api_delete_transaction_spec demoTxs 2).2.2 (by decide)

/-- C9 counterexample: with `limit=0` the function returns every stored row —
here one row, not at most zero — because `if limit:` treats 0 as falsy. -/
theorem get_transactions_limit_zero_counterexample :
    (get_transactions (some 0) dbOne).length = 1
      ∧ ¬ ((get_transactions (some 0) dbOne).length ≤ 0) := by
  decide

/-- C9 witness: a nonzero limit returns the first rows of the full
ordering. -/
theorem get_transactions_spec_witness :
    get_transactions (some 1) demoTxs = (get_transactions none demoTxs).take 1 :=
  (get_transactions_spec demoTxs).2.2.1 1 (by decide)

/-- C10 witness: of the five demo rows exactly the valid one is inserted. -/
theorem upload_file_spec_witness :
    upload_file [] 1 0 demoRows
      = (([] ++ (validRows demoRows).mapIdx (fun i r => rowTx (1 + i) 0 r),
          1 + (validRows demoRows).length), true) :=
  (upload_file_spec [] 1 0 demoRows).2.2 (by decide)

end FinanceGuru
